import Mathlib

/-!
# XDP source-address filter (`xdp_filter.c`)

A shallow embedding of `ip_filter`, the XDP program of `src/xdp_filter.c`, and
the properties of its verdict.

* A frame is the list of bytes between `ctx->data` and `ctx->data_end`;
  pointers into the packet are byte offsets from `data`, so `data = 0` and
  `data_end = frame.length`.
* Every packet read goes through `load_u8`, which returns `none` when the
  offset is outside the frame and otherwise records the offset in a trace.
  The host is little-endian (the program byte-swaps unconditionally in
  `bpf_htons`), so multi-byte loads are little-endian.
* The map helper `bpf_map_lookup_elem(&ip_map, ·)` is a parameter of
  `ip_filter`: a function from keys to an optional value byte (`none` is the
  NULL pointer). `lpm_lookup` is a model of that helper for an LPM trie holding
  a list of entries.
* `ip_filter_ctx` is the same function on the context structure and the
  memory it points into, where reads are not confined to the frame;
  `ip_filter_ctx_eq` shows that it computes what `ip_filter` computes on the
  bytes between `data` and `data_end`.
-/

namespace XdpFilter

/-! ## Constants of the kernel headers -/

/-- A byte of the packet, or a `__u8` map value. -/
abbrev Byte := Fin 256

/-- Action code `XDP_ABORTED` of `enum xdp_action` in `linux/bpf.h`. -/
def XDP_ABORTED : Int := 0

/-- Action code `XDP_DROP` of `enum xdp_action` in `linux/bpf.h`. -/
def XDP_DROP : Int := 1

/-- Action code `XDP_PASS` of `enum xdp_action` in `linux/bpf.h`. -/
def XDP_PASS : Int := 2

/-- Action code `XDP_TX` of `enum xdp_action` in `linux/bpf.h`. -/
def XDP_TX : Int := 3

/-- Action code `XDP_REDIRECT` of `enum xdp_action` in `linux/bpf.h`. -/
def XDP_REDIRECT : Int := 4

/-- Ethertype `ETH_P_IP` of `linux/if_ether.h`. -/
def ETH_P_IP : Nat := 0x0800

/-- Size in bytes of `struct ethhdr` (two 6-byte addresses and `h_proto`). -/
def sizeof_ethhdr : Nat := 14

/-- Offset of `h_proto` in `struct ethhdr`. -/
def offsetof_h_proto : Nat := 12

/-- Size in bytes of `struct iphdr` (the fixed IPv4 header). -/
def sizeof_iphdr : Nat := 20

/-- Offset of `saddr` in `struct iphdr`. -/
def offsetof_saddr : Nat := 12

/-- The 16-bit byte swap `___constant_swab16` of `linux/swab.h`:
`((x & 0x00ff) << 8) | ((x & 0xff00) >> 8)`. -/
def ___constant_swab16 (x : Nat) : Nat :=
  (x % 2 ^ 8) * 2 ^ 8 + (x / 2 ^ 8) % 2 ^ 8

/-- Line 13: `#define bpf_htons(x) ((__be16)___constant_swab16((x)))`. -/
def bpf_htons (x : Nat) : Nat :=
  ___constant_swab16 x % 2 ^ 16

/-! ## Data model -/

/-- Lines 16-19: `struct lpm_key { __u32 prefixlen; __u32 ip; }`. -/
structure lpm_key where
  prefixlen : Nat
  ip : Nat
  deriving DecidableEq, Repr

/-- What one run of the program did besides returning: the packet offsets it
read, in order, and the keys it handed to `bpf_map_lookup_elem`, in order. -/
structure Trace where
  reads : List Nat
  lookups : List lpm_key
  deriving DecidableEq, Repr

/-- The trace of a run that has not started. -/
def Trace.empty : Trace := ⟨[], []⟩

/-! ## Packet access -/

/-- Read of one packet byte at offset `off`; `none` is an access outside
`[data, data_end)`. A successful read is recorded in the trace. -/
def load_u8 (frame : List Byte) (off : Nat) (t : Trace) : Option (Nat × Trace) :=
  match frame[off]? with
  | some b => some (b.val, { t with reads := t.reads ++ [off] })
  | none => none

/-- Read of a 16-bit field at offset `off` on the little-endian host. -/
def load_u16 (frame : List Byte) (off : Nat) (t : Trace) : Option (Nat × Trace) :=
  match load_u8 frame off t with
  | none => none
  | some (b0, t0) =>
    match load_u8 frame (off + 1) t0 with
    | none => none
    | some (b1, t1) => some (b0 + b1 * 2 ^ 8, t1)

/-- Read of a 32-bit field at offset `off` on the little-endian host. -/
def load_u32 (frame : List Byte) (off : Nat) (t : Trace) : Option (Nat × Trace) :=
  match load_u16 frame off t with
  | none => none
  | some (lo, t0) =>
    match load_u16 frame (off + 2) t0 with
    | none => none
    | some (hi, t1) => some (lo + hi * 2 ^ 16, t1)

/-! ## The program -/

/-- Lines 54-57: the key initialiser `{ .prefixlen = 32, .ip = ip->saddr }`. -/
def build_key (saddr : Nat) : lpm_key :=
  { prefixlen := 32, ip := saddr }

/-- Line 59: the call `bpf_map_lookup_elem(&ip_map, &key)`, recorded in the
trace. -/
def map_lookup (bpf_map_lookup_elem : lpm_key → Option Byte) (key : lpm_key) (t : Trace) :
    Option Byte × Trace :=
  (bpf_map_lookup_elem key, { t with lookups := t.lookups ++ [key] })

/-- Lines 39-65: `ip_filter`. The result is `none` when the run reads outside
the frame, and otherwise the returned action code with the trace of the run. -/
def ip_filter (bpf_map_lookup_elem : lpm_key → Option Byte) (frame : List Byte) :
    Option (Int × Trace) :=
  let data : Nat := 0
  let data_end : Nat := frame.length
  let eth := data
  if eth + sizeof_ethhdr > data_end then
    some (XDP_PASS, Trace.empty)
  else
    match load_u16 frame (eth + offsetof_h_proto) Trace.empty with
    | none => none
    | some (h_proto, t0) =>
      if h_proto ≠ bpf_htons ETH_P_IP then
        some (XDP_PASS, t0)
      else
        let ip := eth + sizeof_ethhdr
        if ip + sizeof_iphdr > data_end then
          some (XDP_PASS, t0)
        else
          match load_u32 frame (ip + offsetof_saddr) t0 with
          | none => none
          | some (saddr, t1) =>
            let key := build_key saddr
            match map_lookup bpf_map_lookup_elem key t1 with
            | (some value, t2) =>
              some (if value.val ≠ 0 then XDP_PASS else XDP_DROP, t2)
            | (none, t2) => some (XDP_PASS, t2)

/-- The value returned by `ip_filter`, without the trace. -/
def ip_filter_ret (bpf_map_lookup_elem : lpm_key → Option Byte) (frame : List Byte) :
    Option Int :=
  (ip_filter bpf_map_lookup_elem frame).map Prod.fst

/-! ## The program on its context

The same function one level lower: the argument is the context structure, and
the packet is whatever the memory holds between the two addresses the context
names. Nothing stops a read here from landing outside the packet or the
function from consulting another field of the context. -/

/-- The context `struct xdp_md` of `linux/bpf.h` that `ip_filter` receives. -/
structure xdp_md where
  data : Nat
  data_end : Nat
  data_meta : Nat
  ingress_ifindex : Nat
  rx_queue_index : Nat
  egress_ifindex : Nat
  deriving DecidableEq, Repr

/-- A 16-bit read from memory at address `addr` on the little-endian host. -/
def mem_u16 (mem : Nat → Byte) (addr : Nat) : Nat :=
  (mem addr).val + (mem (addr + 1)).val * 2 ^ 8

/-- A 32-bit read from memory at address `addr` on the little-endian host. -/
def mem_u32 (mem : Nat → Byte) (addr : Nat) : Nat :=
  mem_u16 mem addr + mem_u16 mem (addr + 2) * 2 ^ 16

/-- Lines 39-65: `ip_filter` on the context `ctx`, the memory `mem` at the
time of the call, and the map helper. The pointers `data` and `data_end` are
addresses in `mem`; a dereference reads `mem` at the address, wherever that
is. -/
def ip_filter_ctx (bpf_map_lookup_elem : lpm_key → Option Byte) (ctx : xdp_md)
    (mem : Nat → Byte) : Int :=
  let data : Nat := ctx.data
  let data_end : Nat := ctx.data_end
  let eth := data
  if eth + sizeof_ethhdr > data_end then
    XDP_PASS
  else if mem_u16 mem (eth + offsetof_h_proto) ≠ bpf_htons ETH_P_IP then
    XDP_PASS
  else
    let ip := eth + sizeof_ethhdr
    if ip + sizeof_iphdr > data_end then
      XDP_PASS
    else
      let key := build_key (mem_u32 mem (ip + offsetof_saddr))
      match bpf_map_lookup_elem key with
      | some value => if value.val ≠ 0 then XDP_PASS else XDP_DROP
      | none => XDP_PASS

/-- The frame a context names: the bytes of memory from `data` up to
`data_end`. -/
def frame_of (ctx : xdp_md) (mem : Nat → Byte) : List Byte :=
  (List.range (ctx.data_end - ctx.data)).map (fun i => mem (ctx.data + i))

/-- A memory holding `frame` from address `base` on and the byte `pad`
everywhere else. -/
def mem_with (pad : Byte) (base : Nat) (frame : List Byte) : Nat → Byte :=
  fun addr => if addr < base then pad else frame.getD (addr - base) pad

/-! ## A model of the LPM trie behind the map helper -/

/-- Modelled from the spec: an entry of the prefix table, a stored
`(prefix length, prefix value)` with its single-byte policy value. The entries
are written by the control plane, which is not part of the source; the key has
the layout of `struct lpm_key` and the value is the `__u8` of `ip_map`. -/
structure lpm_entry where
  key : lpm_key
  value : Byte
  deriving DecidableEq, Repr

/-- The four bytes of the field `ip` in memory order on the little-endian
host: the data bytes the trie matches against. -/
def key_data (k : lpm_key) : List Nat :=
  [k.ip % 2 ^ 8, k.ip / 2 ^ 8 % 2 ^ 8, k.ip / 2 ^ 16 % 2 ^ 8, k.ip / 2 ^ 24 % 2 ^ 8]

/-- Bit `i` of the key data, counted from the most significant bit of the
first data byte. -/
def data_bit (k : lpm_key) (i : Nat) : Bool :=
  (key_data k).getD (i / 8) 0 / 2 ^ (7 - i % 8) % 2 == 1

/-- The first `n` bits of the key data. -/
def prefix_bits (n : Nat) (k : lpm_key) : List Bool :=
  (List.range n).map (data_bit k)

/-- Modelled from the spec: the stored prefix `p` covers the queried key `k`
when it is no longer than the key and the two agree on the first
`p.prefixlen` bits. The matching code of the kernel trie is not part of the
source. -/
def covers (p k : lpm_key) : Bool :=
  decide (p.prefixlen ≤ k.prefixlen) && (prefix_bits p.prefixlen p == prefix_bits p.prefixlen k)

/-- Modelled from the spec: the entry with the longest stored prefix that
covers the key, the earliest such entry when several have that length. The
lookup code of the kernel trie is not part of the source. -/
def lpm_longest : List lpm_entry → lpm_key → Option lpm_entry
  | [], _ => none
  | e :: rest, k =>
    match lpm_longest rest k with
    | none => if covers e.key k then some e else none
    | some b =>
      if covers e.key k && decide (b.key.prefixlen ≤ e.key.prefixlen) then some e else some b

/-- Modelled from the spec: `lookup(table, key)`, the policy value of the
longest stored prefix covering the key, or nothing when no stored prefix
covers it. This is the behaviour of `bpf_map_lookup_elem` on `ip_map`, whose
code is not part of the source. -/
def lpm_lookup (table : List lpm_entry) (k : lpm_key) : Option Byte :=
  (lpm_longest table k).map (fun e => e.value)

/-- The table is a mapping from `(prefix length, prefix bits)` to values: two
entries storing the same prefix carry the same value. -/
def table_is_map (table : List lpm_entry) : Prop :=
  ∀ e1 ∈ table, ∀ e2 ∈ table, e1.key.prefixlen = e2.key.prefixlen →
    prefix_bits e1.key.prefixlen e1.key = prefix_bits e1.key.prefixlen e2.key →
    e1.value = e2.value

instance (table : List lpm_entry) : Decidable (table_is_map table) := by
  unfold table_is_map; infer_instance

/-! ## Vocabulary of the statements -/

/-- The byte of the frame at offset `off`, `0` past the end. -/
def byte_at (frame : List Byte) (off : Nat) : Nat :=
  (frame.getD off 0).val

/-- The 32-bit value a little-endian host finds in the `saddr` field, bytes
26 to 29 of the frame. -/
def frame_saddr (frame : List Byte) : Nat :=
  byte_at frame 26 + byte_at frame 27 * 2 ^ 8
    + (byte_at frame 28 + byte_at frame 29 * 2 ^ 8) * 2 ^ 16

/-- The ethertype bytes of the frame are `0x08, 0x00`. -/
def is_ipv4 (frame : List Byte) : Prop :=
  frame[12]? = some 8 ∧ frame[13]? = some 0

instance (frame : List Byte) : Decidable (is_ipv4 frame) := by
  unfold is_ipv4; infer_instance

/-- The verdict for a lookup result, lines 60-64. -/
def verdict_of (r : Option Byte) : Int :=
  match r with
  | some value => if value.val ≠ 0 then XDP_PASS else XDP_DROP
  | none => XDP_PASS

/-- The ethertype field of the frame, bytes 12 and 13 read big-endian. -/
def ethertype (frame : List Byte) : Nat :=
  byte_at frame 12 * 2 ^ 8 + byte_at frame 13

/-- A 34-byte frame, zero except for the ethertype bytes `e0, e1` at offsets
12 and 13 and the source address `a0.a1.a2.a3` at offsets 26 to 29. -/
def sample_frame (e0 e1 a0 a1 a2 a3 : Byte) : List Byte :=
  List.replicate 12 0 ++ [e0, e1] ++ List.replicate 12 0 ++ [a0, a1, a2, a3]
    ++ List.replicate 4 0

/-- The table `{10.0.0.0/8 -> 0}`: the data bytes of the prefix are
`10, 0, 0, 0`, so the field `ip` holds 10 on the little-endian host. -/
def table_10_8 : List lpm_entry :=
  [⟨⟨8, 10⟩, 0⟩]

/-- The table `{10.0.0.0/8 -> 0, 10.1.0.0/16 -> 1}`. -/
def table_10_8_10_1_16 : List lpm_entry :=
  [⟨⟨8, 10⟩, 0⟩, ⟨⟨16, 10 + 1 * 2 ^ 8⟩, 1⟩]

/-! ## Packet reads inside the frame -/

theorem load_u8_of_lt (frame : List Byte) (off : Nat) (t : Trace) (h : off < frame.length) :
    load_u8 frame off t = some (byte_at frame off, { t with reads := t.reads ++ [off] }) := by
  unfold load_u8 byte_at
  simp [List.getD, List.getElem?_eq_getElem h]

theorem load_u8_of_ge (frame : List Byte) (off : Nat) (t : Trace) (h : frame.length ≤ off) :
    load_u8 frame off t = none := by
  unfold load_u8
  simp [List.getElem?_eq_none h]

theorem load_u16_of_lt (frame : List Byte) (off : Nat) (t : Trace) (h : off + 1 < frame.length) :
    load_u16 frame off t =
      some (byte_at frame off + byte_at frame (off + 1) * 2 ^ 8,
        { t with reads := t.reads ++ [off, off + 1] }) := by
  unfold load_u16
  rw [load_u8_of_lt frame off t (by omega)]
  simp only []
  rw [load_u8_of_lt frame (off + 1) _ h]
  simp

theorem load_u32_of_lt (frame : List Byte) (off : Nat) (t : Trace) (h : off + 3 < frame.length) :
    load_u32 frame off t =
      some (byte_at frame off + byte_at frame (off + 1) * 2 ^ 8
          + (byte_at frame (off + 2) + byte_at frame (off + 3) * 2 ^ 8) * 2 ^ 16,
        { t with reads := t.reads ++ [off, off + 1, off + 2, off + 3] }) := by
  unfold load_u32
  rw [load_u16_of_lt frame off t (by omega)]
  simp only []
  rw [load_u16_of_lt frame (off + 2) _ (by omega)]
  simp

theorem byte_at_lt (frame : List Byte) (off : Nat) : byte_at frame off < 256 :=
  (frame.getD off 0).isLt

/-- The run of `ip_filter` path by path: the returned code and the trace on
each of the four paths through the function. -/
theorem ip_filter_eq (lk : lpm_key → Option Byte) (frame : List Byte) :
    ip_filter lk frame =
      if frame.length < 14 then some (XDP_PASS, ⟨[], []⟩)
      else if ¬ (byte_at frame 12 = 8 ∧ byte_at frame 13 = 0) then
        some (XDP_PASS, ⟨[12, 13], []⟩)
      else if frame.length < 34 then some (XDP_PASS, ⟨[12, 13], []⟩)
      else some (verdict_of (lk (build_key (frame_saddr frame))),
        ⟨[12, 13, 26, 27, 28, 29], [build_key (frame_saddr frame)]⟩) := by
  have hb12 := byte_at_lt frame 12
  have hb13 := byte_at_lt frame 13
  have hsw : bpf_htons ETH_P_IP = 8 := by decide
  by_cases h14 : frame.length < 14
  · simp [ip_filter, sizeof_ethhdr, h14, Trace.empty]
  · have e16 : load_u16 frame 12 ⟨[], []⟩ =
        some (byte_at frame 12 + byte_at frame 13 * 256, ⟨[12, 13], []⟩) := by
      simpa using load_u16_of_lt frame 12 ⟨[], []⟩ (by omega)
    by_cases hp : byte_at frame 12 = 8 ∧ byte_at frame 13 = 0
    · have hproto : byte_at frame 12 + byte_at frame 13 * 256 = 8 := by
        rw [hp.1, hp.2]
      by_cases h34 : frame.length < 34
      · simp [ip_filter, sizeof_ethhdr, sizeof_iphdr, offsetof_h_proto, h14, e16, hsw,
          hproto, hp, h34, Trace.empty]
      · have e32 : load_u32 frame 26 ⟨[12, 13], []⟩ =
            some (frame_saddr frame, ⟨[12, 13, 26, 27, 28, 29], []⟩) := by
          simpa [frame_saddr] using load_u32_of_lt frame 26 ⟨[12, 13], []⟩ (by omega)
        simp only [ip_filter, sizeof_ethhdr, sizeof_iphdr, offsetof_h_proto, offsetof_saddr,
          Trace.empty, Nat.zero_add, Nat.reduceAdd, gt_iff_lt, h14, h34, if_false, e16, hsw,
          hproto, ne_eq, not_true_eq_false, e32, map_lookup, if_pos hp, not_not,
          not_false_eq_true, if_true, List.nil_append]
        cases lk (build_key (frame_saddr frame)) <;> simp [verdict_of, hp.1, hp.2]
    · have hproto : byte_at frame 12 + byte_at frame 13 * 256 ≠ 8 := by
        intro h
        apply hp
        omega
      simp [ip_filter, sizeof_ethhdr, offsetof_h_proto, h14, e16, hsw, hproto, hp,
        Trace.empty]

/-! ## The longest covering entry -/

theorem lpm_longest_none (table : List lpm_entry) (k : lpm_key) :
    lpm_longest table k = none ↔ ∀ e ∈ table, covers e.key k = false := by
  induction table with
  | nil => simp [lpm_longest]
  | cons e rest ih =>
    unfold lpm_longest
    cases hrest : lpm_longest rest k with
    | none =>
      have hall := ih.mp hrest
      by_cases hc : covers e.key k = true
      · simp [hc]
      · simp only [Bool.not_eq_true] at hc
        simp [hc]
        exact hall
    | some b =>
      have hne : ¬ ∀ x ∈ rest, covers x.key k = false := fun h => by
        rw [ih.mpr h] at hrest
        cases hrest
      by_cases hc : (covers e.key k && decide (b.key.prefixlen ≤ e.key.prefixlen)) = true
      · simp only [hc, if_true]
        constructor
        · intro h; cases h
        · intro h
          exact absurd (fun x hx => h x (List.mem_cons_of_mem _ hx)) hne
      · simp only []
        rw [if_neg hc]
        constructor
        · intro h; cases h
        · intro h
          exact absurd (fun x hx => h x (List.mem_cons_of_mem _ hx)) hne

theorem lpm_longest_some (table : List lpm_entry) (k : lpm_key) (b : lpm_entry)
    (h : lpm_longest table k = some b) :
    b ∈ table ∧ covers b.key k = true ∧
      ∀ e ∈ table, covers e.key k = true → e.key.prefixlen ≤ b.key.prefixlen := by
  induction table generalizing b with
  | nil => simp [lpm_longest] at h
  | cons e rest ih =>
    unfold lpm_longest at h
    cases hrest : lpm_longest rest k with
    | none =>
      rw [hrest] at h
      have hall := (lpm_longest_none rest k).mp hrest
      by_cases hc : covers e.key k = true
      · simp only [hc, if_true, Option.some.injEq] at h
        subst h
        refine ⟨List.mem_cons_self _ _, hc, ?_⟩
        intro x hx hcx
        rcases List.mem_cons.mp hx with rfl | hx
        · exact Nat.le_refl _
        · rw [hall x hx] at hcx
          cases hcx
      · simp [hc] at h
    | some c =>
      rw [hrest] at h
      obtain ⟨hcm, hcc, hcl⟩ := ih c hrest
      by_cases hc : (covers e.key k && decide (c.key.prefixlen ≤ e.key.prefixlen)) = true
      · simp only [hc, if_true, Option.some.injEq] at h
        subst h
        simp only [Bool.and_eq_true, decide_eq_true_eq] at hc
        refine ⟨List.mem_cons_self _ _, hc.1, ?_⟩
        intro x hx hcx
        rcases List.mem_cons.mp hx with rfl | hx
        · exact Nat.le_refl _
        · exact Nat.le_trans (hcl x hx hcx) hc.2
      · simp only [] at h
        rw [if_neg hc] at h
        cases h
        refine ⟨List.mem_cons_of_mem _ hcm, hcc, ?_⟩
        intro x hx hcx
        rcases List.mem_cons.mp hx with rfl | hx
        · simp only [Bool.and_eq_true, decide_eq_true_eq, not_and, Nat.not_le] at hc
          exact Nat.le_of_lt (hc hcx)
        · exact hcl x hx hcx

theorem lpm_lookup_none (table : List lpm_entry) (k : lpm_key)
    (h : ∀ e ∈ table, covers e.key k = false) : lpm_lookup table k = none := by
  unfold lpm_lookup
  rw [(lpm_longest_none table k).mpr h]
  rfl

theorem lpm_lookup_longest (table : List lpm_entry) (k : lpm_key) (e : lpm_entry)
    (hmap : table_is_map table) (he : e ∈ table) (hc : covers e.key k = true)
    (hmax : ∀ x ∈ table, covers x.key k = true → x.key.prefixlen ≤ e.key.prefixlen) :
    lpm_lookup table k = some e.value := by
  unfold lpm_lookup
  cases hl : lpm_longest table k with
  | none =>
    rw [(lpm_longest_none table k).mp hl e he] at hc
    cases hc
  | some b =>
    obtain ⟨hbm, hbc, hbl⟩ := lpm_longest_some table k b hl
    have hlen : b.key.prefixlen = e.key.prefixlen :=
      Nat.le_antisymm (hmax b hbm hbc) (hbl e he hc)
    have hb := hbc
    have hc2 := hc
    simp only [covers, Bool.and_eq_true, decide_eq_true_eq, beq_iff_eq] at hb hc2
    have hbits : prefix_bits b.key.prefixlen b.key = prefix_bits b.key.prefixlen e.key := by
      rw [hb.2, hlen, hc2.2]
    simp [hmap b hbm e he hlen hbits]

/-! ## Consequences of the path-by-path description -/

theorem byte_at_of_getElem? (frame : List Byte) (off : Nat) (b : Byte)
    (h : frame[off]? = some b) : byte_at frame off = b.val := by
  unfold byte_at
  simp [List.getD, h]

theorem is_ipv4_bytes (frame : List Byte) (h : is_ipv4 frame) :
    byte_at frame 12 = 8 ∧ byte_at frame 13 = 0 :=
  ⟨byte_at_of_getElem? frame 12 8 h.1, byte_at_of_getElem? frame 13 0 h.2⟩

theorem ip_filter_ipv4 (lk : lpm_key → Option Byte) (frame : List Byte)
    (h34 : 34 ≤ frame.length) (hip : is_ipv4 frame) :
    ip_filter lk frame =
      some (verdict_of (lk (build_key (frame_saddr frame))),
        ⟨[12, 13, 26, 27, 28, 29], [build_key (frame_saddr frame)]⟩) := by
  rw [ip_filter_eq]
  have hb := is_ipv4_bytes frame hip
  rw [if_neg (by omega), if_neg (not_not.mpr hb), if_neg (by omega)]

theorem ip_filter_ret_ipv4 (lk : lpm_key → Option Byte) (frame : List Byte)
    (h34 : 34 ≤ frame.length) (hip : is_ipv4 frame) :
    ip_filter_ret lk frame = some (verdict_of (lk (build_key (frame_saddr frame)))) := by
  unfold ip_filter_ret
  rw [ip_filter_ipv4 lk frame h34 hip]
  rfl

theorem ip_filter_ret_eq (lk : lpm_key → Option Byte) (frame : List Byte) :
    ip_filter_ret lk frame =
      some (if frame.length < 14 then XDP_PASS
        else if ¬ (byte_at frame 12 = 8 ∧ byte_at frame 13 = 0) then XDP_PASS
        else if frame.length < 34 then XDP_PASS
        else verdict_of (lk (build_key (frame_saddr frame)))) := by
  unfold ip_filter_ret
  rw [ip_filter_eq]
  split_ifs <;> rfl

theorem verdict_of_cases (r : Option Byte) :
    verdict_of r = XDP_PASS ∨ verdict_of r = XDP_DROP := by
  cases r with
  | none => exact Or.inl rfl
  | some v =>
    by_cases h : v.val = 0
    · right; simp [verdict_of, h]
    · left; simp [verdict_of, h]

theorem frame_saddr_lt (frame : List Byte) : frame_saddr frame < 2 ^ 32 := by
  have h0 := byte_at_lt frame 26
  have h1 := byte_at_lt frame 27
  have h2 := byte_at_lt frame 28
  have h3 := byte_at_lt frame 29
  unfold frame_saddr
  omega

/-! ## Bytes of the frame and of the key -/

theorem getElem?_of_lt (frame : List Byte) (off : Nat) (h : off < frame.length) :
    frame[off]? = some (frame.getD off 0) := by
  simp [List.getD, List.getElem?_eq_getElem h]

theorem byte_at_congr (f1 f2 : List Byte) (off : Nat) (h : f1[off]? = f2[off]?) :
    byte_at f1 off = byte_at f2 off := by
  unfold byte_at
  simp [List.getD, h]

theorem is_ipv4_length (frame : List Byte) (h : is_ipv4 frame) : 14 ≤ frame.length := by
  have h13 := h.2
  by_contra hlt
  rw [List.getElem?_eq_none (by omega)] at h13
  cases h13

theorem is_ipv4_iff (frame : List Byte) (h14 : 14 ≤ frame.length) :
    is_ipv4 frame ↔ byte_at frame 12 = 8 ∧ byte_at frame 13 = 0 := by
  constructor
  · exact is_ipv4_bytes frame
  · intro hb
    unfold is_ipv4
    rw [getElem?_of_lt frame 12 (by omega), getElem?_of_lt frame 13 (by omega)]
    unfold byte_at at hb
    exact ⟨congrArg some (Fin.ext hb.1), congrArg some (Fin.ext hb.2)⟩

theorem frame_saddr_congr (f1 f2 : List Byte) (h26 : f1[26]? = f2[26]?)
    (h27 : f1[27]? = f2[27]?) (h28 : f1[28]? = f2[28]?) (h29 : f1[29]? = f2[29]?) :
    frame_saddr f1 = frame_saddr f2 := by
  unfold frame_saddr
  rw [byte_at_congr f1 f2 26 h26, byte_at_congr f1 f2 27 h27, byte_at_congr f1 f2 28 h28,
    byte_at_congr f1 f2 29 h29]

theorem key_data_build_key (frame : List Byte) :
    key_data (build_key (frame_saddr frame)) =
      [byte_at frame 26, byte_at frame 27, byte_at frame 28, byte_at frame 29] := by
  have h0 := byte_at_lt frame 26
  have h1 := byte_at_lt frame 27
  have h2 := byte_at_lt frame 28
  have h3 := byte_at_lt frame 29
  unfold key_data build_key frame_saddr
  simp only [List.cons.injEq, and_true]
  refine ⟨?_, ?_, ?_, ?_⟩ <;> omega

theorem byte_eq_of_bits (a b : Nat) (ha : a < 256) (hb : b < 256)
    (h : ∀ i < 8, (a / 2 ^ (7 - i) % 2 == 1) = (b / 2 ^ (7 - i) % 2 == 1)) : a = b := by
  have hbit : ∀ x y : Nat, (x % 2 == 1) = (y % 2 == 1) → x % 2 = y % 2 := by
    intro x y hxy
    rw [Bool.eq_iff_iff] at hxy
    simp only [beq_iff_eq] at hxy
    omega
  have e0 := hbit _ _ (h 0 (by omega))
  have e1 := hbit _ _ (h 1 (by omega))
  have e2 := hbit _ _ (h 2 (by omega))
  have e3 := hbit _ _ (h 3 (by omega))
  have e4 := hbit _ _ (h 4 (by omega))
  have e5 := hbit _ _ (h 5 (by omega))
  have e6 := hbit _ _ (h 6 (by omega))
  have e7 := hbit _ _ (h 7 (by omega))
  simp only [Nat.sub_zero, Nat.reduceSub, Nat.reducePow, Nat.div_one] at e0 e1 e2 e3 e4 e5 e6 e7
  omega

theorem data_bit_first_byte (k : lpm_key) (i : Nat) (hi : i < 8) :
    data_bit k i = (k.ip % 2 ^ 8 / 2 ^ (7 - i) % 2 == 1) := by
  unfold data_bit key_data
  have h0 : i / 8 = 0 := by omega
  have h1 : i % 8 = i := by omega
  rw [h0, h1]
  rfl

theorem covers_len8 (p k : lpm_key) (hp : p.prefixlen = 8) (hk : 8 ≤ k.prefixlen) :
    covers p k = true ↔ p.ip % 2 ^ 8 = k.ip % 2 ^ 8 := by
  unfold covers prefix_bits
  rw [hp]
  simp only [hk, decide_True, Bool.true_and, beq_iff_eq, List.map_inj_left, List.mem_range]
  constructor
  · intro h
    apply byte_eq_of_bits _ _ (Nat.mod_lt _ (by decide)) (Nat.mod_lt _ (by decide))
    intro i hi
    have hh := h i hi
    rw [data_bit_first_byte p i hi, data_bit_first_byte k i hi] at hh
    exact hh
  · intro h i hi
    have h256 : p.ip % 2 ^ 8 = k.ip % 2 ^ 8 := h
    rw [data_bit_first_byte p i hi, data_bit_first_byte k i hi, h256]

/-! ## The run on a context is the run on its frame -/

theorem frame_of_length (ctx : xdp_md) (mem : Nat → Byte) :
    (frame_of ctx mem).length = ctx.data_end - ctx.data := by
  simp [frame_of]

theorem byte_at_frame_of (ctx : xdp_md) (mem : Nat → Byte) (i : Nat)
    (hi : i < ctx.data_end - ctx.data) :
    byte_at (frame_of ctx mem) i = (mem (ctx.data + i)).val := by
  apply byte_at_of_getElem?
  simp [frame_of, List.getElem?_range hi]

theorem ip_filter_ctx_eq (lk : lpm_key → Option Byte) (ctx : xdp_md) (mem : Nat → Byte) :
    some (ip_filter_ctx lk ctx mem) = ip_filter_ret lk (frame_of ctx mem) := by
  have hsw : bpf_htons ETH_P_IP = 8 := by decide
  rw [ip_filter_ret_eq, frame_of_length]
  unfold ip_filter_ctx
  simp only [sizeof_ethhdr, sizeof_iphdr, offsetof_h_proto, offsetof_saddr, hsw, gt_iff_lt]
  by_cases h14 : ctx.data_end - ctx.data < 14
  · rw [if_pos h14, if_pos (by omega)]
  · have b12 := byte_at_frame_of ctx mem 12 (by omega)
    have b13 := byte_at_frame_of ctx mem 13 (by omega)
    have l12 := byte_at_lt (frame_of ctx mem) 12
    have l13 := byte_at_lt (frame_of ctx mem) 13
    have h16 : mem_u16 mem (ctx.data + 12) =
        byte_at (frame_of ctx mem) 12 + byte_at (frame_of ctx mem) 13 * 2 ^ 8 := by
      unfold mem_u16
      rw [b12, b13]
    rw [if_neg h14, if_neg (by omega), h16]
    by_cases hp : byte_at (frame_of ctx mem) 12 = 8 ∧ byte_at (frame_of ctx mem) 13 = 0
    · have hv : byte_at (frame_of ctx mem) 12 + byte_at (frame_of ctx mem) 13 * 2 ^ 8 = 8 := by
        rw [hp.1, hp.2]
        rfl
      rw [if_neg (not_not.mpr hv), if_neg (not_not.mpr hp)]
      by_cases h34 : ctx.data_end - ctx.data < 34
      · rw [if_pos h34, if_pos (by omega)]
      · have h32 : mem_u32 mem (ctx.data + 14 + 12) = frame_saddr (frame_of ctx mem) := by
          unfold mem_u32 mem_u16 frame_saddr
          rw [byte_at_frame_of ctx mem 26 (by omega), byte_at_frame_of ctx mem 27 (by omega),
            byte_at_frame_of ctx mem 28 (by omega), byte_at_frame_of ctx mem 29 (by omega)]
        rw [if_neg h34, if_neg (by omega), h32]
        rfl
    · have hv : byte_at (frame_of ctx mem) 12 + byte_at (frame_of ctx mem) 13 * 2 ^ 8 ≠ 8 := by
        intro h
        apply hp
        omega
      rw [if_pos hv, if_pos hp]

theorem frame_of_congr (ctx1 ctx2 : xdp_md) (mem1 mem2 : Nat → Byte)
    (hlen : ctx1.data_end - ctx1.data = ctx2.data_end - ctx2.data)
    (hbytes : ∀ i, i < ctx1.data_end - ctx1.data → mem1 (ctx1.data + i) = mem2 (ctx2.data + i)) :
    frame_of ctx1 mem1 = frame_of ctx2 mem2 := by
  unfold frame_of
  rw [← hlen, List.map_inj_left]
  intro i hi
  exact hbytes i (List.mem_range.mp hi)

/-! ## The claims -/

/-- C1: for a frame of at least 34 bytes with ethertype bytes `0x08, 0x00`, the
key handed to the lookup is the key built from the frame's source address; a
lookup result with value byte 0 makes `ip_filter` return `XDP_DROP`, and a
lookup result with any nonzero value byte makes it return `XDP_PASS`. -/
theorem ip_filter_zero_drops_nonzero_passes (lk : lpm_key → Option Byte)
    (frame : List Byte) (h34 : 34 ≤ frame.length) (hip : is_ipv4 frame) :
    (ip_filter lk frame).map (fun o => o.2.lookups) = some [build_key (frame_saddr frame)] ∧
    (lk (build_key (frame_saddr frame)) = some 0 → ip_filter_ret lk frame = some XDP_DROP) ∧
    (∀ v : Byte, v ≠ 0 → lk (build_key (frame_saddr frame)) = some v →
      ip_filter_ret lk frame = some XDP_PASS) := by
  refine ⟨?_, ?_, ?_⟩
  · rw [ip_filter_ipv4 lk frame h34 hip]
    rfl
  · intro h
    rw [ip_filter_ret_ipv4 lk frame h34 hip, h]
    rfl
  · intro v hv h
    rw [ip_filter_ret_ipv4 lk frame h34 hip, h]
    have : v.val ≠ 0 := fun h0 => hv (Fin.ext h0)
    simp [verdict_of, this]

/-- Witness of C1: on a 34-byte IPv4 frame from 10.1.2.3, a lookup answering 0
gives `XDP_DROP` and a lookup answering 255 gives `XDP_PASS`. -/
theorem ip_filter_zero_drops_nonzero_passes_witness :
    34 ≤ (sample_frame 8 0 10 1 2 3).length ∧ is_ipv4 (sample_frame 8 0 10 1 2 3) ∧
    ip_filter_ret (fun _ => some 0) (sample_frame 8 0 10 1 2 3) = some XDP_DROP ∧
    ip_filter_ret (fun _ => some 255) (sample_frame 8 0 10 1 2 3) = some XDP_PASS :=
  ⟨by decide, by decide,
    (ip_filter_zero_drops_nonzero_passes (fun _ => some 0) (sample_frame 8 0 10 1 2 3)
      (by decide) (by decide)).2.1 rfl,
    (ip_filter_zero_drops_nonzero_passes (fun _ => some 255) (sample_frame 8 0 10 1 2 3)
      (by decide) (by decide)).2.2 255 (by decide) rfl⟩

/-- C2: for every buffer shorter than 14 bytes, the empty buffer included, and
every behaviour of the table, `ip_filter` returns `XDP_PASS`. -/
theorem ip_filter_short_frame_passes (lk : lpm_key → Option Byte) (frame : List Byte)
    (h : frame.length < 14) : ip_filter_ret lk frame = some XDP_PASS := by
  rw [ip_filter_ret_eq, if_pos h]

/-- Witness of C2: the empty buffer and a 13-byte buffer, with a table that
would drop every address. -/
theorem ip_filter_short_frame_passes_witness :
    ([] : List Byte).length < 14 ∧ (List.replicate 13 (8 : Byte)).length < 14 ∧
    ip_filter_ret (fun _ => some 0) [] = some XDP_PASS ∧
    ip_filter_ret (fun _ => some 0) (List.replicate 13 8) = some XDP_PASS :=
  ⟨by decide, by decide,
    ip_filter_short_frame_passes (fun _ => some 0) [] (by decide),
    ip_filter_short_frame_passes (fun _ => some 0) (List.replicate 13 8) (by decide)⟩

/-- C3: for every buffer of at least 14 bytes whose ethertype field (bytes 12
and 13, big-endian) is not `0x0800`, `ip_filter` returns `XDP_PASS`, whatever
the other bytes are and whatever the table answers. -/
theorem ip_filter_non_ipv4_passes (lk : lpm_key → Option Byte) (frame : List Byte)
    (h14 : 14 ≤ frame.length) (hne : ethertype frame ≠ 0x0800) :
    ip_filter_ret lk frame = some XDP_PASS := by
  have hp : ¬ (byte_at frame 12 = 8 ∧ byte_at frame 13 = 0) := by
    intro hb
    apply hne
    unfold ethertype
    rw [hb.1, hb.2]
    rfl
  rw [ip_filter_ret_eq, if_neg (by omega), if_pos hp]

/-- Witness of C3: an IPv6 frame (ethertype `0x86DD`) whose bytes 26 to 29 are
10.1.2.3, with a table that answers 0 for every address. -/
theorem ip_filter_non_ipv4_passes_witness :
    14 ≤ (sample_frame 0x86 0xDD 10 1 2 3).length ∧
    ethertype (sample_frame 0x86 0xDD 10 1 2 3) ≠ 0x0800 ∧
    ip_filter_ret (fun _ => some 0) (sample_frame 0x86 0xDD 10 1 2 3) = some XDP_PASS :=
  ⟨by decide, by decide,
    ip_filter_non_ipv4_passes (fun _ => some 0) (sample_frame 0x86 0xDD 10 1 2 3)
      (by decide) (by decide)⟩

/-- C4: for every buffer holding the whole Ethernet header but fewer than 20
bytes after it (length 14 to 33), `ip_filter` returns `XDP_PASS`, whatever the
ethertype is and whatever the table answers. -/
theorem ip_filter_incomplete_ipv4_passes (lk : lpm_key → Option Byte) (frame : List Byte)
    (h14 : 14 ≤ frame.length) (h34 : frame.length < 34) :
    ip_filter_ret lk frame = some XDP_PASS := by
  rw [ip_filter_ret_eq, if_neg (by omega)]
  split_ifs <;> rfl

/-- Witness of C4: the first 33 bytes of an IPv4 frame from 10.1.2.3, with a
table that would drop every address. -/
theorem ip_filter_incomplete_ipv4_passes_witness :
    14 ≤ ((sample_frame 8 0 10 1 2 3).take 33).length ∧
    ((sample_frame 8 0 10 1 2 3).take 33).length < 34 ∧
    is_ipv4 ((sample_frame 8 0 10 1 2 3).take 33) ∧
    ip_filter_ret (fun _ => some 0) ((sample_frame 8 0 10 1 2 3).take 33)
      = some XDP_PASS :=
  ⟨by decide, by decide, by decide,
    ip_filter_incomplete_ipv4_passes (fun _ => some 0) ((sample_frame 8 0 10 1 2 3).take 33)
      (by decide) (by decide)⟩

/-- C5: with the table a longest-prefix-match lookup over stored entries, for
every complete IPv4 frame (at least 34 bytes, ethertype bytes `0x08, 0x00`)
whose source address is covered by a stored prefix of value 0 and by no more
specific stored prefix, `ip_filter` returns `XDP_DROP`. -/
theorem ip_filter_drops_on_longest_zero (table : List lpm_entry) (frame : List Byte)
    (e : lpm_entry) (h34 : 34 ≤ frame.length) (hip : is_ipv4 frame)
    (hmap : table_is_map table) (he : e ∈ table)
    (hc : covers e.key (build_key (frame_saddr frame)) = true) (hv : e.value = 0)
    (hmax : ∀ x ∈ table, covers x.key (build_key (frame_saddr frame)) = true →
      ¬ e.key.prefixlen < x.key.prefixlen) :
    ip_filter_ret (lpm_lookup table) frame = some XDP_DROP := by
  have hl := lpm_lookup_longest table (build_key (frame_saddr frame)) e hmap he hc
    (fun x hx hcx => Nat.not_lt.mp (hmax x hx hcx))
  rw [ip_filter_ret_ipv4 _ frame h34 hip, hl, hv]
  rfl

/-- Witness of C5: the table `{10.0.0.0/8 -> 0}` and an IPv4 frame from
10.1.2.3. -/
theorem ip_filter_drops_on_longest_zero_witness :
    34 ≤ (sample_frame 8 0 10 1 2 3).length ∧ is_ipv4 (sample_frame 8 0 10 1 2 3) ∧
    table_is_map table_10_8 ∧
    covers (⟨8, 10⟩ : lpm_key) (build_key (frame_saddr (sample_frame 8 0 10 1 2 3))) = true ∧
    ip_filter_ret (lpm_lookup table_10_8) (sample_frame 8 0 10 1 2 3) = some XDP_DROP :=
  ⟨by decide, by decide, by decide, by decide,
    ip_filter_drops_on_longest_zero table_10_8 (sample_frame 8 0 10 1 2 3) ⟨⟨8, 10⟩, 0⟩
      (by decide) (by decide) (by decide) (by decide) (by decide) rfl (by decide)⟩

/-- C6: the longest match decides. For every complete IPv4 frame and every
stored entry that covers the source address with no longer covering entry in
the table, the verdict of `ip_filter` is the verdict for the value of that
entry (`XDP_DROP` for 0, `XDP_PASS` otherwise); in particular, when a shorter
covering prefix has value 0 and the longest covering prefix has a nonzero
value, `ip_filter` returns `XDP_PASS`. -/
theorem ip_filter_longest_match_decides (table : List lpm_entry) (frame : List Byte)
    (e : lpm_entry) (h34 : 34 ≤ frame.length) (hip : is_ipv4 frame)
    (hmap : table_is_map table) (he : e ∈ table)
    (hc : covers e.key (build_key (frame_saddr frame)) = true)
    (hmax : ∀ x ∈ table, covers x.key (build_key (frame_saddr frame)) = true →
      x.key.prefixlen ≤ e.key.prefixlen) :
    ip_filter_ret (lpm_lookup table) frame
        = some (if e.value = 0 then XDP_DROP else XDP_PASS) ∧
    (∀ s ∈ table, covers s.key (build_key (frame_saddr frame)) = true →
      s.key.prefixlen < e.key.prefixlen → s.value = 0 → e.value ≠ 0 →
      ip_filter_ret (lpm_lookup table) frame = some XDP_PASS) := by
  have hl := lpm_lookup_longest table (build_key (frame_saddr frame)) e hmap he hc hmax
  have hret : ip_filter_ret (lpm_lookup table) frame
      = some (if e.value = 0 then XDP_DROP else XDP_PASS) := by
    rw [ip_filter_ret_ipv4 _ frame h34 hip, hl]
    by_cases h0 : e.value = 0
    · simp [verdict_of, h0]
    · have : e.value.val ≠ 0 := fun h => h0 (Fin.ext h)
      simp [verdict_of, h0, this]
  refine ⟨hret, ?_⟩
  intro s _ _ _ _ hnz
  rw [hret, if_neg hnz]

/-- Witness of C6: the table `{10.0.0.0/8 -> 0, 10.1.0.0/16 -> 1}` and an IPv4
frame from 10.1.2.3: both prefixes cover the address and the verdict is
`XDP_PASS`. -/
theorem ip_filter_longest_match_decides_witness :
    34 ≤ (sample_frame 8 0 10 1 2 3).length ∧ is_ipv4 (sample_frame 8 0 10 1 2 3) ∧
    table_is_map table_10_8_10_1_16 ∧
    covers (⟨8, 10⟩ : lpm_key) (build_key (frame_saddr (sample_frame 8 0 10 1 2 3))) = true ∧
    covers (⟨16, 10 + 1 * 2 ^ 8⟩ : lpm_key)
      (build_key (frame_saddr (sample_frame 8 0 10 1 2 3))) = true ∧
    ip_filter_ret (lpm_lookup table_10_8_10_1_16) (sample_frame 8 0 10 1 2 3)
      = some XDP_PASS :=
  ⟨by decide, by decide, by decide, by decide, by decide,
    (ip_filter_longest_match_decides table_10_8_10_1_16 (sample_frame 8 0 10 1 2 3)
      ⟨⟨16, 10 + 1 * 2 ^ 8⟩, 1⟩ (by decide) (by decide) (by decide) (by decide) (by decide)
      (by decide)).2 ⟨⟨8, 10⟩, 0⟩ (by decide) (by decide) (by decide) rfl (by decide)⟩

/-- C7: default-allow. For every frame, when the lookup of the key built from
the source address returns nothing, `ip_filter` returns `XDP_PASS`; with the
table a longest-prefix-match lookup, this is the case when no stored prefix
covers the source address, and with the empty table `ip_filter` returns
`XDP_PASS` for every frame. -/
theorem ip_filter_default_allow (lk : lpm_key → Option Byte) (table : List lpm_entry)
    (frame : List Byte) :
    (lk (build_key (frame_saddr frame)) = none → ip_filter_ret lk frame = some XDP_PASS) ∧
    ((∀ e ∈ table, covers e.key (build_key (frame_saddr frame)) = false) →
      lpm_lookup table (build_key (frame_saddr frame)) = none ∧
      ip_filter_ret (lpm_lookup table) frame = some XDP_PASS) ∧
    ip_filter_ret (lpm_lookup []) frame = some XDP_PASS := by
  have hnone : ∀ f : lpm_key → Option Byte,
      f (build_key (frame_saddr frame)) = none → ip_filter_ret f frame = some XDP_PASS := by
    intro f hf
    rw [ip_filter_ret_eq, hf]
    split_ifs <;> rfl
  refine ⟨hnone lk, ?_, ?_⟩
  · intro hall
    have hl := lpm_lookup_none table (build_key (frame_saddr frame)) hall
    exact ⟨hl, hnone _ hl⟩
  · exact hnone _ rfl

/-- Witness of C7: an IPv4 frame from 11.1.2.3, which the only stored prefix
10.0.0.0/8 (value 0) does not cover, passes; it also passes with the empty
table. -/
theorem ip_filter_default_allow_witness :
    34 ≤ (sample_frame 8 0 11 1 2 3).length ∧ is_ipv4 (sample_frame 8 0 11 1 2 3) ∧
    (∀ e ∈ table_10_8,
      covers e.key (build_key (frame_saddr (sample_frame 8 0 11 1 2 3))) = false) ∧
    ip_filter_ret (lpm_lookup table_10_8) (sample_frame 8 0 11 1 2 3) = some XDP_PASS ∧
    ip_filter_ret (lpm_lookup []) (sample_frame 8 0 11 1 2 3) = some XDP_PASS :=
  ⟨by decide, by decide, by decide,
    ((ip_filter_default_allow (fun _ => none) table_10_8
      (sample_frame 8 0 11 1 2 3)).2.1 (by decide)).2,
    (ip_filter_default_allow (fun _ => none) table_10_8 (sample_frame 8 0 11 1 2 3)).2.2⟩

/-- C8: the key built for an address `A` has value `A` and prefix length 32;
every run of `ip_filter` returns, and every key it hands to the table lookup
has prefix length 32 and a value below `2 ^ 32`. -/
theorem build_key_roundtrip (A : Nat) (lk : lpm_key → Option Byte) (frame : List Byte) :
    (build_key A).ip = A ∧ (build_key A).prefixlen = 32 ∧
    ∃ r t, ip_filter lk frame = some (r, t) ∧
      ∀ k ∈ t.lookups, k.prefixlen = 32 ∧ k.ip < 2 ^ 32 := by
  refine ⟨rfl, rfl, ?_⟩
  rw [ip_filter_eq]
  split_ifs
  · exact ⟨_, _, rfl, by simp⟩
  · exact ⟨_, _, rfl, by simp⟩
  · refine ⟨_, _, rfl, ?_⟩
    intro k hk
    simp only [List.mem_singleton] at hk
    subst hk
    exact ⟨rfl, frame_saddr_lt frame⟩
  · exact ⟨_, _, rfl, by simp⟩

/-- C9: no read is made outside the received buffer. A read at an offset past
the end of the frame yields `none`, and no run of `ip_filter` does: every run
returns, every offset it reads is below the length of the frame and is one of
12, 13, 26, 27, 28, 29; offsets 12 and 13 are read only when the length is at
least 14, and offsets 26 to 29 only when it is at least 34. -/
theorem ip_filter_reads_in_bounds (lk : lpm_key → Option Byte) (frame : List Byte) :
    (∀ off t, frame.length ≤ off → load_u8 frame off t = none) ∧
    ∃ r t, ip_filter lk frame = some (r, t) ∧
      (∀ off ∈ t.reads, off < frame.length) ∧
      (∀ off ∈ t.reads, off ∈ [12, 13, 26, 27, 28, 29]) ∧
      (∀ off ∈ t.reads, off = 12 ∨ off = 13 → 14 ≤ frame.length) ∧
      (∀ off ∈ t.reads, off = 26 ∨ off = 27 ∨ off = 28 ∨ off = 29 → 34 ≤ frame.length) := by
  refine ⟨fun off t h => load_u8_of_ge frame off t h, ?_⟩
  rw [ip_filter_eq]
  have hsub : ∀ off : Nat, off ∈ [12, 13] →
      14 ≤ frame.length → off < frame.length ∧ off ∈ [12, 13, 26, 27, 28, 29] ∧
        ¬ (off = 26 ∨ off = 27 ∨ off = 28 ∨ off = 29) := by
    intro off hoff hlen
    simp only [List.mem_cons, List.mem_singleton, List.not_mem_nil, or_false] at hoff
    simp only [List.mem_cons, List.mem_singleton, List.not_mem_nil, or_false]
    omega
  split_ifs with h14 hp h34
  · exact ⟨_, _, rfl, by simp, by simp, by simp, by simp⟩
  · exact ⟨_, _, rfl, fun off hoff => (hsub off hoff (by omega)).1,
      fun off hoff => (hsub off hoff (by omega)).2.1, fun _ _ _ => by omega,
      fun off hoff h => absurd h (hsub off hoff (by omega)).2.2⟩
  · refine ⟨_, _, rfl, ?_, fun off hoff => hoff, fun _ _ _ => by omega,
      fun _ _ _ => by omega⟩
    intro off hoff
    simp only [List.mem_cons, List.mem_singleton, List.not_mem_nil, or_false] at hoff
    omega
  · exact ⟨_, _, rfl, fun off hoff => (hsub off hoff (by omega)).1,
      fun off hoff => (hsub off hoff (by omega)).2.1, fun _ _ _ => by omega,
      fun off hoff h => absurd h (hsub off hoff (by omega)).2.2⟩

/-- C10: for every frame and every behaviour of the table, `ip_filter` returns,
and the returned value is `XDP_PASS` or `XDP_DROP`; it is none of
`XDP_ABORTED`, `XDP_TX`, `XDP_REDIRECT`. -/
theorem ip_filter_returns_pass_or_drop (lk : lpm_key → Option Byte) (frame : List Byte) :
    ∃ r, ip_filter_ret lk frame = some r ∧ (r = XDP_PASS ∨ r = XDP_DROP) ∧
      r ≠ XDP_ABORTED ∧ r ≠ XDP_TX ∧ r ≠ XDP_REDIRECT := by
  have hcodes : ∀ r : Int, r = XDP_PASS ∨ r = XDP_DROP →
      (r = XDP_PASS ∨ r = XDP_DROP) ∧ r ≠ XDP_ABORTED ∧ r ≠ XDP_TX ∧ r ≠ XDP_REDIRECT := by
    intro r hr
    refine ⟨hr, ?_⟩
    rcases hr with rfl | rfl <;> decide
  rw [ip_filter_ret_eq]
  refine ⟨_, rfl, hcodes _ ?_⟩
  split_ifs
  · exact Or.inl rfl
  · exact Or.inl rfl
  · exact verdict_of_cases _
  · exact Or.inl rfl

/-- C11: determinism. Take two calls of `ip_filter`, each with its own context
and its own memory, whose frames have the same length and the same bytes, and
whose table snapshots answer every key alike. They return the same verdict,
whatever the addresses of the two packets, the other fields of the two
contexts and the memory outside the two frames are; and that verdict is the
one computed from the frame bytes and the table alone. -/
theorem ip_filter_deterministic (lk1 lk2 : lpm_key → Option Byte) (ctx1 ctx2 : xdp_md)
    (mem1 mem2 : Nat → Byte)
    (hlen : ctx1.data_end - ctx1.data = ctx2.data_end - ctx2.data)
    (hbytes : ∀ i, i < ctx1.data_end - ctx1.data → mem1 (ctx1.data + i) = mem2 (ctx2.data + i))
    (htable : ∀ k, lk1 k = lk2 k) :
    ip_filter_ctx lk1 ctx1 mem1 = ip_filter_ctx lk2 ctx2 mem2 ∧
    some (ip_filter_ctx lk1 ctx1 mem1) = ip_filter_ret lk1 (frame_of ctx1 mem1) := by
  have h1 := ip_filter_ctx_eq lk1 ctx1 mem1
  have h2 := ip_filter_ctx_eq lk2 ctx2 mem2
  refine ⟨?_, h1⟩
  have hl : lk2 = lk1 := funext (fun k => (htable k).symm)
  have hf := frame_of_congr ctx1 ctx2 mem1 mem2 hlen hbytes
  rw [← hf] at h2
  rw [hl] at h2 ⊢
  rw [← h1] at h2
  exact (Option.some.inj h2).symm

/-- Witness of C11: the IPv4 frame from 10.1.2.3 at address 0 of a zeroed
memory, and the same frame at address 100 of a memory filled with `0xff`,
under a context with other metadata, interface and queue fields; both calls
return `XDP_DROP` with a table answering 0. -/
theorem ip_filter_deterministic_witness :
    (⟨0, 34, 0, 1, 0, 0⟩ : xdp_md) ≠ ⟨100, 134, 96, 2, 7, 0⟩ ∧
    mem_with 0 0 (sample_frame 8 0 10 1 2 3) 34
      ≠ mem_with 0xff 100 (sample_frame 8 0 10 1 2 3) 134 ∧
    ip_filter_ctx (fun _ => some 0) ⟨0, 34, 0, 1, 0, 0⟩ (mem_with 0 0 (sample_frame 8 0 10 1 2 3))
      = XDP_DROP ∧
    ip_filter_ctx (fun _ => some 0) ⟨0, 34, 0, 1, 0, 0⟩ (mem_with 0 0 (sample_frame 8 0 10 1 2 3))
      = ip_filter_ctx (fun _ => some 0) ⟨100, 134, 96, 2, 7, 0⟩
          (mem_with 0xff 100 (sample_frame 8 0 10 1 2 3)) :=
  ⟨by decide, by decide, by decide,
    (ip_filter_deterministic (fun _ => some 0) (fun _ => some 0) ⟨0, 34, 0, 1, 0, 0⟩
      ⟨100, 134, 96, 2, 7, 0⟩ (mem_with 0 0 (sample_frame 8 0 10 1 2 3))
      (mem_with 0xff 100 (sample_frame 8 0 10 1 2 3)) (by decide) (by decide)
      (fun _ => rfl)).1⟩

/-- C12: the ethertype test is made in network byte order. `bpf_htons` turns
`0x0800` into the value a little-endian host loads from the bytes `0x08, 0x00`;
for every frame of at least 14 bytes the 16-bit load at offset 12 succeeds and
equals that value exactly when byte 12 is `0x08` and byte 13 is `0x00`; a frame
failing the test is passed after reading only bytes 12 and 13, a frame of at
least 34 bytes has its source address looked up exactly when it meets the
test, and a frame whose bytes 12, 13 are `0x00, 0x08` is passed. -/
theorem ethertype_test_network_byte_order (lk : lpm_key → Option Byte) (frame : List Byte)
    (h14 : 14 ≤ frame.length) :
    bpf_htons ETH_P_IP = 0x08 + 0x00 * 2 ^ 8 ∧
    (∃ h_proto t, load_u16 frame offsetof_h_proto Trace.empty = some (h_proto, t) ∧
      (h_proto = bpf_htons ETH_P_IP ↔ is_ipv4 frame)) ∧
    (¬ is_ipv4 frame → ip_filter lk frame = some (XDP_PASS, ⟨[12, 13], []⟩)) ∧
    (34 ≤ frame.length →
      ((ip_filter lk frame).map (fun o => o.2.lookups) = some [build_key (frame_saddr frame)]
        ↔ is_ipv4 frame)) ∧
    (frame[12]? = some 0 → frame[13]? = some 8 → ip_filter_ret lk frame = some XDP_PASS) := by
  have hiff := is_ipv4_iff frame h14
  have hb12 := byte_at_lt frame 12
  have hb13 := byte_at_lt frame 13
  have hsw : bpf_htons ETH_P_IP = 8 := by decide
  have hnot : ¬ is_ipv4 frame → ip_filter lk frame = some (XDP_PASS, ⟨[12, 13], []⟩) := by
    intro hn
    rw [ip_filter_eq, if_neg (by omega), if_pos (fun hb => hn (hiff.mpr hb))]
  refine ⟨by decide, ?_, hnot, ?_, ?_⟩
  · have e16 : load_u16 frame offsetof_h_proto Trace.empty =
        some (byte_at frame 12 + byte_at frame 13 * 256, ⟨[12, 13], []⟩) := by
      simpa [Trace.empty] using load_u16_of_lt frame 12 ⟨[], []⟩ (by omega)
    refine ⟨_, _, e16, ?_⟩
    rw [hsw, hiff]
    constructor
    · intro h
      omega
    · intro h
      rw [h.1, h.2]
  · intro h34
    constructor
    · intro h
      by_contra hn
      rw [hnot hn] at h
      cases h
    · intro hip
      rw [ip_filter_ipv4 lk frame h34 hip]
      rfl
  · intro h12 h13
    have hn : ¬ is_ipv4 frame := by
      intro hip
      have h := hip.1
      rw [h12] at h
      cases h
    unfold ip_filter_ret
    rw [hnot hn]
    rfl

/-- Witness of C12: a 34-byte frame from 10.1.2.3 whose bytes 12, 13 are
`0x00, 0x08` is passed by a table that would drop every address. -/
theorem ethertype_test_network_byte_order_witness :
    14 ≤ (sample_frame 0 8 10 1 2 3).length ∧
    ip_filter_ret (fun _ => some 0) (sample_frame 0 8 10 1 2 3) = some XDP_PASS :=
  ⟨by decide,
    (ethertype_test_network_byte_order (fun _ => some 0) (sample_frame 0 8 10 1 2 3)
      (by decide)).2.2.2.2 (by decide) (by decide)⟩

/-- C13: the length checks are exact. A frame with ethertype bytes `0x08, 0x00`
is treated as having an incomplete IPv4 header (no read of the source address,
no lookup) exactly when its length is below 34; such a frame of exactly 34
bytes is dropped when the lookup for its source address returns 0; a frame of
exactly 14 bytes has its ethertype bytes 12 and 13 read, and a frame of 13
bytes has nothing read. -/
theorem ip_filter_length_checks_exact (lk : lpm_key → Option Byte) (frame : List Byte) :
    ∃ r t, ip_filter lk frame = some (r, t) ∧
      (is_ipv4 frame → ((t.lookups = [] ∧ 26 ∉ t.reads) ↔ frame.length < 34)) ∧
      (is_ipv4 frame → frame.length = 34 →
        lk (build_key (frame_saddr frame)) = some 0 → r = XDP_DROP) ∧
      (frame.length = 14 → t.reads = [12, 13]) ∧
      (frame.length = 13 → t.reads = []) := by
  rw [ip_filter_eq]
  split_ifs with h14 hp h34
  · refine ⟨_, _, rfl, ?_, ?_, ?_, ?_⟩
    · intro hip
      have := is_ipv4_length frame hip
      omega
    · intro _ h
      omega
    · intro h
      omega
    · intro _
      rfl
  · refine ⟨_, _, rfl, ?_, ?_, ?_, ?_⟩
    · intro _
      simp [h34]
    · intro _ h
      omega
    · intro _
      rfl
    · intro h
      omega
  · refine ⟨_, _, rfl, ?_, ?_, ?_, ?_⟩
    · intro _
      simp [h34]
    · intro _ _ h0
      rw [h0]
      rfl
    · intro h
      omega
    · intro h
      omega
  · refine ⟨_, _, rfl, ?_, ?_, ?_, ?_⟩
    · intro hip
      exact absurd (is_ipv4_bytes frame hip) hp
    · intro hip
      exact absurd (is_ipv4_bytes frame hip) hp
    · intro _
      rfl
    · intro h
      omega

/-- Witness of C13: an IPv4 frame of exactly 34 bytes from 10.1.2.3 is dropped
by a table answering 0, and its first 33 bytes cause no lookup. -/
theorem ip_filter_length_checks_exact_witness :
    (sample_frame 8 0 10 1 2 3).length = 34 ∧ is_ipv4 (sample_frame 8 0 10 1 2 3) ∧
    (∃ r t, ip_filter (fun _ => some 0) (sample_frame 8 0 10 1 2 3) = some (r, t) ∧
      r = XDP_DROP) ∧
    ((sample_frame 8 0 10 1 2 3).take 33).length = 33 ∧
    is_ipv4 ((sample_frame 8 0 10 1 2 3).take 33) ∧
    (∃ r t, ip_filter (fun _ => some 0) ((sample_frame 8 0 10 1 2 3).take 33) = some (r, t) ∧
      t.lookups = [] ∧ 26 ∉ t.reads) :=
  ⟨by decide, by decide,
    match ip_filter_length_checks_exact (fun _ => some 0) (sample_frame 8 0 10 1 2 3) with
    | ⟨r, t, h, _, hdrop, _, _⟩ => ⟨r, t, h, hdrop (by decide) (by decide) rfl⟩,
    by decide, by decide,
    match ip_filter_length_checks_exact (fun _ => some 0)
        ((sample_frame 8 0 10 1 2 3).take 33) with
    | ⟨r, t, h, hshort, _, _, _⟩ => ⟨r, t, h, (hshort (by decide)).mpr (by decide)⟩⟩

/-- C14: bytes that are not inspected do not interfere. Two frames of at least
34 bytes that agree on bytes 12, 13 (ethertype) and 26 to 29 (IPv4 source
address) get the same verdict from `ip_filter`, with the same reads and the
same lookup, for every table. -/
theorem ip_filter_noninterference (lk : lpm_key → Option Byte) (f1 f2 : List Byte)
    (h1 : 34 ≤ f1.length) (h2 : 34 ≤ f2.length)
    (e12 : f1[12]? = f2[12]?) (e13 : f1[13]? = f2[13]?)
    (e26 : f1[26]? = f2[26]?) (e27 : f1[27]? = f2[27]?)
    (e28 : f1[28]? = f2[28]?) (e29 : f1[29]? = f2[29]?) :
    ip_filter lk f1 = ip_filter lk f2 ∧ ip_filter_ret lk f1 = ip_filter_ret lk f2 := by
  have h : ip_filter lk f1 = ip_filter lk f2 := by
    have a1 : ¬ f1.length < 14 := by omega
    have a2 : ¬ f2.length < 14 := by omega
    have b1 : ¬ f1.length < 34 := by omega
    have b2 : ¬ f2.length < 34 := by omega
    rw [ip_filter_eq lk f1, ip_filter_eq lk f2, if_neg a1, if_neg a2, if_neg b1, if_neg b2,
      byte_at_congr f1 f2 12 e12, byte_at_congr f1 f2 13 e13,
      frame_saddr_congr f1 f2 e26 e27 e28 e29]
  refine ⟨h, ?_⟩
  unfold ip_filter_ret
  rw [h]

/-- Witness of C14: the 34-byte zero-padded IPv4 frame from 10.1.2.3 and a
60-byte frame with other MAC addresses, other header bytes and a payload, but
the same ethertype and source address. -/
theorem ip_filter_noninterference_witness :
    (List.replicate 12 0xff ++ [8, 0] ++ [0x46, 0, 0, 46, 1, 2, 0, 0, 64, 6, 9, 9]
        ++ [10, 1, 2, 3] ++ [192, 168, 0, 1] ++ List.replicate 26 0x5a : List Byte)
      ≠ sample_frame 8 0 10 1 2 3 ∧
    ip_filter_ret (fun _ => some 0) (sample_frame 8 0 10 1 2 3)
      = ip_filter_ret (fun _ => some 0)
        (List.replicate 12 0xff ++ [8, 0] ++ [0x46, 0, 0, 46, 1, 2, 0, 0, 64, 6, 9, 9]
          ++ [10, 1, 2, 3] ++ [192, 168, 0, 1] ++ List.replicate 26 0x5a) :=
  ⟨by decide,
    (ip_filter_noninterference (fun _ => some 0) (sample_frame 8 0 10 1 2 3)
      (List.replicate 12 0xff ++ [8, 0] ++ [0x46, 0, 0, 46, 1, 2, 0, 0, 64, 6, 9, 9]
        ++ [10, 1, 2, 3] ++ [192, 168, 0, 1] ++ List.replicate 26 0x5a)
      (by decide) (by decide) (by decide) (by decide) (by decide) (by decide) (by decide)
      (by decide)).2⟩

/-- C15: the table is queried at most once per run, and exactly once when the
frame has at least 34 bytes and ethertype bytes `0x08, 0x00`; on the three early
returns (frame shorter than 14 bytes, ethertype other than `0x0800`, fewer than
34 bytes) no key reaches the lookup. -/
theorem ip_filter_single_lookup (lk : lpm_key → Option Byte) (frame : List Byte) :
    ∃ r t, ip_filter lk frame = some (r, t) ∧
      t.lookups.length ≤ 1 ∧
      (t.lookups.length = 1 ↔ 34 ≤ frame.length ∧ is_ipv4 frame) ∧
      (t.lookups = [build_key (frame_saddr frame)] ∨ t.lookups = []) ∧
      (frame.length < 14 → t.lookups = []) ∧
      (14 ≤ frame.length → ethertype frame ≠ 0x0800 → t.lookups = []) ∧
      (14 ≤ frame.length → frame.length < 34 → t.lookups = []) := by
  have hety : byte_at frame 12 = 8 ∧ byte_at frame 13 = 0 → ethertype frame = 0x0800 := by
    intro hb
    unfold ethertype
    rw [hb.1, hb.2]
    rfl
  rw [ip_filter_eq]
  split_ifs with h14 hp h34
  · refine ⟨_, _, rfl, by simp, ?_, Or.inr rfl, fun _ => rfl, fun _ _ => rfl, fun _ _ => rfl⟩
    constructor
    · intro h
      simp at h
    · intro h
      omega
  · refine ⟨_, _, rfl, by simp, ?_, Or.inr rfl, fun _ => rfl, fun _ _ => rfl, fun _ _ => rfl⟩
    constructor
    · intro h
      simp at h
    · intro h
      omega
  · refine ⟨_, _, rfl, by simp, ?_, Or.inl rfl, fun h => by omega,
      fun _ hne => absurd (hety hp) hne, fun _ h => by omega⟩
    constructor
    · intro _
      exact ⟨by omega, (is_ipv4_iff frame (by omega)).mpr hp⟩
    · intro _
      rfl
  · refine ⟨_, _, rfl, by simp, ?_, Or.inr rfl, fun _ => rfl, fun _ _ => rfl, fun _ _ => rfl⟩
    constructor
    · intro h
      simp at h
    · intro h
      exact absurd (is_ipv4_bytes frame h.2) hp

/-- Witness of C15: an IPv4 frame from 10.1.2.3 causes one lookup, with the key
of that address. -/
theorem ip_filter_single_lookup_witness :
    34 ≤ (sample_frame 8 0 10 1 2 3).length ∧ is_ipv4 (sample_frame 8 0 10 1 2 3) ∧
    ∃ r t, ip_filter (fun _ => none) (sample_frame 8 0 10 1 2 3) = some (r, t) ∧
      t.lookups.length = 1 :=
  ⟨by decide, by decide,
    match ip_filter_single_lookup (fun _ => none) (sample_frame 8 0 10 1 2 3) with
    | ⟨r, t, h, _, hone, _, _, _, _⟩ => ⟨r, t, h, hone.mpr ⟨by decide, by decide⟩⟩⟩

/-- C16: the key carries the source address in wire order, without a byte
swap. For every complete IPv4 frame the one key handed to the lookup has the
value `b26 + b27 * 2^8 + b28 * 2^16 + b29 * 2^24`, so its four bytes in memory
on the little-endian host are the frame bytes 26, 27, 28, 29 in that order, and
a stored prefix of length 8 covers the key exactly when its first data byte is
the first octet of the source address. -/
theorem key_ip_in_wire_order (lk : lpm_key → Option Byte) (frame : List Byte)
    (h34 : 34 ≤ frame.length) (hip : is_ipv4 frame) :
    ∃ r key, ip_filter lk frame = some (r, ⟨[12, 13, 26, 27, 28, 29], [key]⟩) ∧
      key.ip = byte_at frame 26 + byte_at frame 27 * 2 ^ 8 + byte_at frame 28 * 2 ^ 16
        + byte_at frame 29 * 2 ^ 24 ∧
      key_data key = [byte_at frame 26, byte_at frame 27, byte_at frame 28, byte_at frame 29] ∧
      (∀ p : lpm_key, p.prefixlen = 8 →
        (covers p key = true ↔ (key_data p).head? = some (byte_at frame 26))) := by
  refine ⟨_, _, ip_filter_ipv4 lk frame h34 hip, ?_, key_data_build_key frame, ?_⟩
  · unfold build_key frame_saddr
    simp only
    omega
  · intro p hp
    have hk : key_data (build_key (frame_saddr frame)) = _ := key_data_build_key frame
    have h0 : (build_key (frame_saddr frame)).ip % 2 ^ 8 = byte_at frame 26 := by
      have := congrArg List.head? hk
      simpa [key_data] using this
    have h32 : 8 ≤ (build_key (frame_saddr frame)).prefixlen := by
      show 8 ≤ 32
      omega
    rw [covers_len8 p _ hp h32, h0]
    simp [key_data]

/-- Witness of C16: the source 10.1.2.3 is covered by the stored prefix of
length 8 whose data bytes are `10, 0, 0, 0`, and not by the one whose data
bytes are `0, 0, 0, 10`. -/
theorem key_ip_in_wire_order_witness :
    34 ≤ (sample_frame 8 0 10 1 2 3).length ∧ is_ipv4 (sample_frame 8 0 10 1 2 3) ∧
    ∃ r key, ip_filter (fun _ => none) (sample_frame 8 0 10 1 2 3)
        = some (r, ⟨[12, 13, 26, 27, 28, 29], [key]⟩) ∧
      key_data key = [10, 1, 2, 3] ∧
      covers ⟨8, 10⟩ key = true ∧ covers ⟨8, 10 * 2 ^ 24⟩ key = false :=
  ⟨by decide, by decide,
    match key_ip_in_wire_order (fun _ => none) (sample_frame 8 0 10 1 2 3)
        (by decide) (by decide) with
    | ⟨r, key, h, _, hdata, hcov⟩ =>
      ⟨r, key, h, hdata, (hcov ⟨8, 10⟩ rfl).mpr (by decide),
        Bool.eq_false_iff.mpr (fun hc => absurd ((hcov ⟨8, 10 * 2 ^ 24⟩ rfl).mp hc)
          (by decide))⟩⟩

end XdpFilter
